import Mathlib

/-!
Verification of the mealgram food-diary bot (`src/main.py`, `src/cmd_time.py`)
against its specification.

The Python code is shallowly embedded: regex-based parsers become explicit
character-list scanners, the process-wide `state` dict becomes an association
list, the append-only JSONL log becomes a `List LoggedEntry`, and `datetime`
values become explicit records / integer epoch seconds.  Character classes
(`\s`, `\d`, case-insensitivity) are modelled over their ASCII fragment, the
fragment exercised by every example in the specification.
-/

namespace Mealgram

/-! ### Characters

Python's `\s` and `\d` classes, restricted to ASCII, expressed numerically via
`Char.toNat` so proofs can run on linear arithmetic.  `lowNat` is ASCII
lowercasing on code points (65–90 are `A`–`Z`). -/

/-- ASCII whitespace: space, tab, newline, carriage return, vertical tab,
form feed — the ASCII members of the regex class `\s`. -/
def pySpace (c : Char) : Bool :=
  c.toNat = 32 || c.toNat = 9 || c.toNat = 10 || c.toNat = 13 ||
  c.toNat = 11 || c.toNat = 12

/-- ASCII digit `0`–`9` (code points 48–57), the ASCII members of `\d`. -/
def pyDigit (c : Char) : Bool :=
  48 ≤ c.toNat && c.toNat ≤ 57

/-- ASCII letter `A`–`Z` or `a`–`z`, the regex class `[A-Za-z]`. -/
def pyAlpha (c : Char) : Bool :=
  (65 ≤ c.toNat && c.toNat ≤ 90) || (97 ≤ c.toNat && c.toNat ≤ 122)

/-- ASCII lowercasing on code points: `A`–`Z` (65–90) map to `a`–`z`
(97–122); everything else is unchanged.  Models Python's case-insensitive
matching and `str.lower()` on the ASCII fragment. -/
def lowNat (c : Char) : Nat :=
  if 65 ≤ c.toNat ∧ c.toNat ≤ 90 then c.toNat + 32 else c.toNat

/-- The digit run read as an unsigned base-10 integer: `int(m.group(1))`. -/
def digitsToNat (ds : List Char) : Nat :=
  ds.foldl (fun acc c => 10 * acc + (c.toNat - 48)) 0

/-- `str.strip()` (ASCII fragment): drop whitespace from both ends. -/
def pyStrip (cs : List Char) : List Char :=
  ((cs.dropWhile pySpace).reverse.dropWhile pySpace).reverse

/-- `str.strip()` on `String`. -/
def pyStripStr (s : String) : String :=
  String.mk (pyStrip s.data)

/-! ### Close Detector

`CAL_RE = re.compile(r"^\s*(\d{2,5})\s*(k?cal)?\s*$", re.I)` (`src/main.py`
line 22) and the extraction `kcal = int(m.group(1))` (line 217).

The backtracking regex is deterministic here: the digit run it captures is
always the maximal digit run after the leading whitespace (a shorter prefix of
the run would leave a digit that none of `\s*`, `(k?cal)?`, `\s*$` can
consume), and at the suffix position `k?cal` can apply in at most one way
(a `kcal` head never also reads as `cal`, since `k ≠ c`).  So a single
left-to-right scan is an exact model. -/

/-- The optional `(k?cal)?` group, case-insensitive (code points:
`k` = 107, `c` = 99, `a` = 97, `l` = 108): strip a leading `kcal` or `cal`
if present, otherwise return the input unchanged. -/
def stripCalSuffix (cs : List Char) : List Char :=
  match cs with
  | c1 :: c2 :: c3 :: c4 :: rest =>
    if lowNat c1 = 107 ∧ lowNat c2 = 99 ∧ lowNat c3 = 97 ∧ lowNat c4 = 108 then
      rest
    else if lowNat c1 = 99 ∧ lowNat c2 = 97 ∧ lowNat c3 = 108 then
      c4 :: rest
    else cs
  | [c1, c2, c3] =>
    if lowNat c1 = 99 ∧ lowNat c2 = 97 ∧ lowNat c3 = 108 then [] else cs
  | _ => cs

/-- Close Detector: `CAL_RE.match(text)` plus `int(m.group(1))`.  Returns
`some kcal` when the whole string matches the pattern
`^\s*(\d{2,5})\s*(k?cal)?\s*$` (case-insensitive), `none` otherwise. -/
def calClose (s : String) : Option Nat :=
  let cs := s.data.dropWhile pySpace
  let ds := cs.takeWhile pyDigit
  let rest := cs.dropWhile pyDigit
  if 2 ≤ ds.length ∧ ds.length ≤ 5 then
    if (stripCalSuffix (rest.dropWhile pySpace)).all pySpace then
      some (digitsToNat ds)
    else none
  else none

/-- The close grammar as the specification words it: optional leading
whitespace, 2 to 5 ASCII digits, optional whitespace, an optional
case-insensitive suffix `cal` (`[99,97,108]`) or `kcal` (`[107,99,97,108]`),
optional trailing whitespace, and nothing else. -/
def IsCloseForm (s : String) : Prop :=
  ∃ w1 ds w2 suf w3 : List Char,
    s.data = w1 ++ ds ++ w2 ++ suf ++ w3 ∧
    (∀ c ∈ w1, pySpace c) ∧ (∀ c ∈ w2, pySpace c) ∧ (∀ c ∈ w3, pySpace c) ∧
    (∀ c ∈ ds, pyDigit c) ∧ 2 ≤ ds.length ∧ ds.length ≤ 5 ∧
    (suf.map lowNat = [] ∨ suf.map lowNat = [99, 97, 108] ∨
     suf.map lowNat = [107, 99, 97, 108])

/-! #### Character-class facts -/

lemma pyDigit_not_pySpace {c : Char} (h : pyDigit c = true) : pySpace c = false := by
  simp only [pyDigit, Bool.and_eq_true, decide_eq_true_eq] at h
  simp only [pySpace, Bool.or_eq_false_iff, decide_eq_false_iff_not]
  omega

lemma pySpace_not_pyDigit {c : Char} (h : pySpace c = true) : pyDigit c = false := by
  cases hb : pyDigit c with
  | false => rfl
  | true =>
    rw [pyDigit_not_pySpace hb] at h
    exact Bool.noConfusion h

lemma pySpace_lowNat {c : Char} (h : pySpace c = true) : lowNat c = c.toNat := by
  simp only [pySpace, Bool.or_eq_true, decide_eq_true_eq] at h
  simp only [lowNat, ite_eq_right_iff]
  omega

lemma pyDigit_lowNat {c : Char} (h : pyDigit c = true) : lowNat c = c.toNat := by
  simp only [pyDigit, Bool.and_eq_true, decide_eq_true_eq] at h
  simp only [lowNat, ite_eq_right_iff]
  omega

/-- A character whose ASCII-lowercase is `c` (99) or `k` (107) is neither
whitespace nor a digit. -/
lemma calHead_not_space_digit {c : Char} (h : lowNat c = 99 ∨ lowNat c = 107) :
    pySpace c = false ∧ pyDigit c = false := by
  simp only [lowNat] at h
  constructor
  · simp only [pySpace, Bool.or_eq_false_iff, decide_eq_false_iff_not]
    split at h <;> omega
  · simp only [pyDigit, Bool.and_eq_false_iff, decide_eq_false_iff_not]
    split at h <;> omega

/-! #### Scanning lemmas -/

lemma dropWhile_append_all {p : α → Bool} {l1 l2 : List α} (h : ∀ c ∈ l1, p c = true) :
    (l1 ++ l2).dropWhile p = l2.dropWhile p := by
  induction l1 with
  | nil => rfl
  | cons a t ih =>
    simp only [List.cons_append, List.dropWhile_cons, h a (by simp)]
    exact ih fun c hc => h c (by simp [hc])

lemma dropWhile_eq_nil_of_all {p : α → Bool} {l : List α} (h : ∀ c ∈ l, p c = true) :
    l.dropWhile p = [] :=
  List.dropWhile_eq_nil_iff.mpr h

/-- Scanning `l1 ++ l2` when every element of `l1` satisfies `p` and the head
of `l2` (if any) does not: `takeWhile` recovers `l1`, `dropWhile` recovers
`l2`. -/
lemma scan_split {p : α → Bool} {l1 l2 : List α} (h1 : ∀ c ∈ l1, p c = true)
    (h2 : ∀ c, l2.head? = some c → p c = false) :
    (l1 ++ l2).takeWhile p = l1 ∧ (l1 ++ l2).dropWhile p = l2 := by
  induction l1 with
  | nil =>
    simp only [List.nil_append]
    cases l2 with
    | nil => simp
    | cons a t => simp [List.takeWhile_cons, List.dropWhile_cons, h2 a rfl]
  | cons a t ih =>
    have ha : p a = true := h1 a (by simp)
    have ih' := ih (fun c hc => h1 c (by simp [hc]))
    simp [List.takeWhile_cons, List.dropWhile_cons, ha, ih'.1, ih'.2]

/-! #### `stripCalSuffix` lemmas -/

/-- Whatever `stripCalSuffix` removes is an empty, `cal`, or `kcal` prefix. -/
lemma stripCalSuffix_decomp (cs : List Char) :
    ∃ suf, cs = suf ++ stripCalSuffix cs ∧
      (suf.map lowNat = [] ∨ suf.map lowNat = [99, 97, 108] ∨
       suf.map lowNat = [107, 99, 97, 108]) := by
  match cs with
  | [] => exact ⟨[], by simp [stripCalSuffix]⟩
  | [c1] => exact ⟨[], by simp [stripCalSuffix]⟩
  | [c1, c2] => exact ⟨[], by simp [stripCalSuffix]⟩
  | [c1, c2, c3] =>
    by_cases h : lowNat c1 = 99 ∧ lowNat c2 = 97 ∧ lowNat c3 = 108
    · exact ⟨[c1, c2, c3], by simp [stripCalSuffix, h, h.1, h.2.1, h.2.2]⟩
    · exact ⟨[], by simp [stripCalSuffix, h]⟩
  | c1 :: c2 :: c3 :: c4 :: rest =>
    by_cases hk : lowNat c1 = 107 ∧ lowNat c2 = 99 ∧ lowNat c3 = 97 ∧ lowNat c4 = 108
    · exact ⟨[c1, c2, c3, c4],
        by simp [stripCalSuffix, hk, hk.1, hk.2.1, hk.2.2.1, hk.2.2.2]⟩
    · by_cases hc : lowNat c1 = 99 ∧ lowNat c2 = 97 ∧ lowNat c3 = 108
      · exact ⟨[c1, c2, c3],
          by simp [stripCalSuffix, hk, hc, hc.1, hc.2.1, hc.2.2]⟩
      · exact ⟨[], by simp [stripCalSuffix, hk, hc]⟩

lemma pySpace_toNat_le {c : Char} (h : pySpace c = true) : c.toNat ≤ 32 := by
  simp only [pySpace, Bool.or_eq_true, decide_eq_true_eq] at h
  omega

lemma stripCalSuffix_of_all_space {cs : List Char} (h : ∀ c ∈ cs, pySpace c = true) :
    stripCalSuffix cs = cs := by
  have key : ∀ c ∈ cs, lowNat c ≤ 32 := by
    intro c hc
    rw [pySpace_lowNat (h c hc)]
    exact pySpace_toNat_le (h c hc)
  match cs with
  | [] => rfl
  | [c1] => rfl
  | [c1, c2] => rfl
  | [c1, c2, c3] =>
    have h1 := key c1 (by simp)
    simp only [stripCalSuffix, ite_eq_right_iff]
    intro hcond
    omega
  | c1 :: c2 :: c3 :: c4 :: rest =>
    have h1 := key c1 (by simp)
    simp only [stripCalSuffix]
    split_ifs with hk hc
    · omega
    · omega
    · rfl

lemma stripCalSuffix_cal {suf w3 : List Char} (h : suf.map lowNat = [99, 97, 108]) :
    stripCalSuffix (suf ++ w3) = w3 := by
  rcases suf with _ | ⟨a, _ | ⟨b, _ | ⟨c, _ | ⟨d, t⟩⟩⟩⟩ <;> simp at h
  obtain ⟨ha, hb, hc⟩ := h
  cases w3 with
  | nil =>
    show stripCalSuffix [a, b, c] = []
    simp only [stripCalSuffix]
    rw [if_pos ⟨ha, hb, hc⟩]
  | cons e w3' =>
    show stripCalSuffix (a :: b :: c :: e :: w3') = e :: w3'
    simp only [stripCalSuffix]
    split_ifs with hk hc'
    · omega
    · rfl
    · exact absurd ⟨ha, hb, hc⟩ hc'

lemma stripCalSuffix_kcal {suf w3 : List Char} (h : suf.map lowNat = [107, 99, 97, 108]) :
    stripCalSuffix (suf ++ w3) = w3 := by
  rcases suf with _ | ⟨a, _ | ⟨b, _ | ⟨c, _ | ⟨d, _ | ⟨e, t⟩⟩⟩⟩⟩ <;> simp at h
  obtain ⟨ha, hb, hc, hd⟩ := h
  show stripCalSuffix (a :: b :: c :: d :: w3) = w3
  simp only [stripCalSuffix]
  rw [if_pos ⟨ha, hb, hc, hd⟩]

/-! #### Digit-run value lemmas -/

lemma digitsToNat_cons (c : Char) (t : List Char) :
    digitsToNat (c :: t) = (c.toNat - 48) * 10 ^ t.length + digitsToNat t := by
  have key : ∀ (ds : List Char) (a : Nat),
      ds.foldl (fun acc c => 10 * acc + (c.toNat - 48)) a
        = a * 10 ^ ds.length + digitsToNat ds := by
    intro ds
    induction ds with
    | nil => intro a; simp [digitsToNat]
    | cons d t ih =>
      intro a
      have h1 := ih (10 * a + (d.toNat - 48))
      have h2 := ih (10 * 0 + (d.toNat - 48))
      simp only [List.foldl_cons, digitsToNat, List.length_cons] at *
      rw [h1, h2, pow_succ]
      ring
  have := key t (10 * 0 + (c.toNat - 48))
  simp only [digitsToNat, List.foldl_cons] at *
  rw [this]
  ring

lemma digitsToNat_lt (ds : List Char) (h : ∀ c ∈ ds, pyDigit c = true) :
    digitsToNat ds < 10 ^ ds.length := by
  induction ds with
  | nil => simp [digitsToNat]
  | cons c t ih =>
    have hc : c.toNat - 48 ≤ 9 := by
      have := h c (by simp)
      simp only [pyDigit, Bool.and_eq_true, decide_eq_true_eq] at this
      omega
    have ht := ih fun x hx => h x (by simp [hx])
    rw [digitsToNat_cons, List.length_cons, pow_succ]
    calc (c.toNat - 48) * 10 ^ t.length + digitsToNat t
        < (c.toNat - 48) * 10 ^ t.length + 10 ^ t.length := by omega
      _ = (c.toNat - 48 + 1) * 10 ^ t.length := by ring
      _ ≤ 10 * 10 ^ t.length := Nat.mul_le_mul_right _ (by omega)
      _ = 10 ^ t.length * 10 := by ring

/-- Any string accepted by `calClose` decomposes per the close grammar, and
the extracted value is the digit run's base-10 reading. -/
lemma calClose_decomp {s : String} {k : Nat} (h : calClose s = some k) :
    ∃ w1 ds w2 suf w3 : List Char,
      s.data = w1 ++ ds ++ w2 ++ suf ++ w3 ∧
      (∀ c ∈ w1, pySpace c = true) ∧ (∀ c ∈ w2, pySpace c = true) ∧
      (∀ c ∈ w3, pySpace c = true) ∧
      (∀ c ∈ ds, pyDigit c = true) ∧ 2 ≤ ds.length ∧ ds.length ≤ 5 ∧
      (suf.map lowNat = [] ∨ suf.map lowNat = [99, 97, 108] ∨
       suf.map lowNat = [107, 99, 97, 108]) ∧
      k = digitsToNat ds := by
  simp only [calClose] at h
  split_ifs at h with h1 h2
  have hk : k = digitsToNat ((s.data.dropWhile pySpace).takeWhile pyDigit) :=
    (Option.some_inj.mp h).symm
  obtain ⟨suf, hsplit, hsuf⟩ :=
    stripCalSuffix_decomp (((s.data.dropWhile pySpace).dropWhile pyDigit).dropWhile pySpace)
  refine ⟨s.data.takeWhile pySpace,
    (s.data.dropWhile pySpace).takeWhile pyDigit,
    ((s.data.dropWhile pySpace).dropWhile pyDigit).takeWhile pySpace,
    suf,
    stripCalSuffix (((s.data.dropWhile pySpace).dropWhile pyDigit).dropWhile pySpace),
    ?_, ?_, ?_, ?_, ?_, h1.1, h1.2, hsuf, hk⟩
  · conv_lhs => rw [← List.takeWhile_append_dropWhile pySpace s.data,
      ← List.takeWhile_append_dropWhile pyDigit (s.data.dropWhile pySpace),
      ← List.takeWhile_append_dropWhile pySpace
        ((s.data.dropWhile pySpace).dropWhile pyDigit),
      hsplit]
    simp [List.append_assoc]
  · exact fun c hc => List.mem_takeWhile_imp hc
  · exact fun c hc => List.mem_takeWhile_imp hc
  · exact fun c hc => List.all_eq_true.mp h2 c hc
  · exact fun c hc => List.mem_takeWhile_imp hc

/-- Any string of the spec's close-grammar form is accepted by `calClose`. -/
lemma closeForm_accept {s : String} (h : IsCloseForm s) : (calClose s).isSome := by
  obtain ⟨w1, ds, w2, suf, w3, heq, hw1, hw2, hw3, hds, hlen2, hlen5, hsuf⟩ := h
  obtain ⟨d, ds', rfl⟩ : ∃ d ds', ds = d :: ds' := by
    cases ds with
    | nil => simp at hlen2
    | cons d t => exact ⟨d, t, rfl⟩
  have hd : pyDigit d = true := hds d (by simp)
  -- After the leading whitespace the scan sees the digit run.
  have e1 : s.data.dropWhile pySpace = (d :: ds') ++ (w2 ++ suf ++ w3) := by
    have hre : w1 ++ d :: ds' ++ w2 ++ suf ++ w3
        = w1 ++ ((d :: ds') ++ (w2 ++ suf ++ w3)) := by
      simp [List.append_assoc]
    rw [heq, hre]
    exact (scan_split hw1 (fun c hc => by
      simp only [List.cons_append, List.head?_cons, Option.some_inj] at hc
      rw [← hc]
      exact pyDigit_not_pySpace hd)).2
  -- The digit scan consumes exactly the digit run.
  have hR : ∀ c, (w2 ++ suf ++ w3).head? = some c → pyDigit c = false := by
    intro c hc
    cases w2 with
    | cons a t =>
      simp only [List.cons_append, List.head?_cons, Option.some_inj] at hc
      rw [← hc]
      exact pySpace_not_pyDigit (hw2 a (by simp))
    | nil =>
      cases suf with
      | cons a t =>
        simp only [List.nil_append, List.cons_append, List.head?_cons,
          Option.some_inj] at hc
        have ha : lowNat a = 99 ∨ lowNat a = 107 := by
          rcases hsuf with h' | h' | h' <;> simp at h'
          · exact Or.inl h'.1
          · exact Or.inr h'.1
        rw [← hc]
        exact (calHead_not_space_digit ha).2
      | nil =>
        cases w3 with
        | nil => simp at hc
        | cons a t =>
          simp only [List.nil_append, List.head?_cons, Option.some_inj] at hc
          rw [← hc]
          exact pySpace_not_pyDigit (hw3 a (by simp))
  have e2 : ((d :: ds') ++ (w2 ++ suf ++ w3)).takeWhile pyDigit = d :: ds' ∧
      ((d :: ds') ++ (w2 ++ suf ++ w3)).dropWhile pyDigit = w2 ++ suf ++ w3 :=
    scan_split hds hR
  -- The tail after digits and optional whitespace is the suffix plus spaces.
  have e4 : (stripCalSuffix (((w2 ++ suf ++ w3).dropWhile pySpace))).all pySpace = true := by
    cases suf with
    | nil =>
      have hall : ∀ c ∈ w2 ++ [] ++ w3, pySpace c = true := by
        intro c hc
        simp only [List.append_nil, List.mem_append] at hc
        rcases hc with hc | hc
        · exact hw2 c hc
        · exact hw3 c hc
      rw [dropWhile_eq_nil_of_all hall]
      simp [stripCalSuffix]
    | cons a suf' =>
      have ha : lowNat a = 99 ∨ lowNat a = 107 := by
        rcases hsuf with h' | h' | h' <;> simp at h'
        · exact Or.inl h'.1
        · exact Or.inr h'.1
      have edrop : (w2 ++ (a :: suf') ++ w3).dropWhile pySpace = (a :: suf') ++ w3 := by
        rw [List.append_assoc]
        exact (scan_split hw2 (fun c hc => by
          simp only [List.cons_append, List.head?_cons, Option.some_inj] at hc
          rw [← hc]
          exact (calHead_not_space_digit ha).1)).2
      rw [edrop]
      rcases hsuf with h' | h' | h'
      · simp at h'
      · rw [stripCalSuffix_cal h']
        exact List.all_eq_true.mpr hw3
      · rw [stripCalSuffix_kcal h']
        exact List.all_eq_true.mpr hw3
  simp only [calClose, e1, e2.1, e2.2]
  rw [if_pos ⟨hlen2, hlen5⟩, if_pos e4]
  rfl

/-- C4: the Close Detector accepts exactly the strings of the grammar form
(optional whitespace, 2–5 digits, optional whitespace, optional
case-insensitive `cal`/`kcal`, optional whitespace), anchored over the whole
string; and the specification's concrete examples behave as stated. -/
theorem C4_close_grammar_exact :
    (∀ s : String, (calClose s).isSome ↔ IsCloseForm s) ∧
    (calClose "850 cal").isSome ∧ (calClose "850kcal").isSome ∧
    (calClose " 850 ").isSome ∧ (calClose "1234 Cal").isSome ∧
    calClose "8500000 cal" = none ∧ calClose "cal 850" = none := by
  refine ⟨fun s => ⟨fun h => ?_, closeForm_accept⟩,
    by decide, by decide, by decide, by decide, by decide, by decide⟩
  obtain ⟨k, hk⟩ := Option.isSome_iff_exists.mp h
  obtain ⟨w1, ds, w2, suf, w3, h1, h2, h3, h4, h5, h6, h7, h8, _⟩ := calClose_decomp hk
  exact ⟨w1, ds, w2, suf, w3, h1, h2, h3, h4, h5, h6, h7, h8⟩

/-- C1 fails as stated: `"00"` is accepted by the Close Detector (two digits)
but its extracted value is `0`, below the claimed lower bound `10`. -/
theorem C1_calories_lower_bound_counterexample :
    calClose "00" = some 0 ∧ ¬ (10 ≤ 0) := by decide

/-- C1 (amended): for every accepted message the extracted value is the digit
run read as an unsigned integer and is at most 99999; it is at least 10
whenever the run's leading digit is nonzero (a leading zero, as in `"00"`,
gives a smaller value). -/
theorem C1_calories_value_bounds (s : String) (k : Nat) (h : calClose s = some k) :
    k ≤ 99999 ∧
    ∃ w1 ds w2 suf w3 : List Char,
      s.data = w1 ++ ds ++ w2 ++ suf ++ w3 ∧ (∀ c ∈ ds, pyDigit c = true) ∧
      2 ≤ ds.length ∧ ds.length ≤ 5 ∧ k = digitsToNat ds ∧
      (∀ d ds', ds = d :: ds' → d.toNat ≠ 48 → 10 ≤ k) := by
  obtain ⟨w1, ds, w2, suf, w3, h1, _, _, _, h5, h6, h7, _, h9⟩ := calClose_decomp h
  have hup : k ≤ 99999 := by
    have := digitsToNat_lt ds h5
    have hpow : 10 ^ ds.length ≤ 10 ^ 5 := Nat.pow_le_pow_right (by norm_num) h7
    omega
  refine ⟨hup, w1, ds, w2, suf, w3, h1, h5, h6, h7, h9, ?_⟩
  rintro d ds' rfl hd0
  have hd : pyDigit d = true := h5 d (by simp)
  have hd48 : 49 ≤ d.toNat ∧ d.toNat ≤ 57 := by
    simp only [pyDigit, Bool.and_eq_true, decide_eq_true_eq] at hd
    omega
  have hlen : 1 ≤ ds'.length := by
    simp only [List.length_cons] at h6
    omega
  have hpow : 10 ≤ 10 ^ ds'.length := by
    calc 10 = 10 ^ 1 := by norm_num
    _ ≤ 10 ^ ds'.length := Nat.pow_le_pow_right (by norm_num) hlen
  rw [h9, digitsToNat_cons]
  have : 1 * 10 ^ ds'.length ≤ (d.toNat - 48) * 10 ^ ds'.length :=
    Nat.mul_le_mul_right _ (by omega)
  omega

/-- Witness for C1 at the concrete accepted message `"650 kcal"`. -/
theorem C1_calories_value_bounds_witness :
    650 ≤ 99999 ∧
    ∃ w1 ds w2 suf w3 : List Char,
      ("650 kcal" : String).data = w1 ++ ds ++ w2 ++ suf ++ w3 ∧
      (∀ c ∈ ds, pyDigit c = true) ∧
      2 ≤ ds.length ∧ ds.length ≤ 5 ∧ 650 = digitsToNat ds ∧
      (∀ d ds', ds = d :: ds' → d.toNat ≠ 48 → 10 ≤ 650) :=
  C1_calories_value_bounds "650 kcal" 650 (by decide)

/-! ### Entry Store and message handling (`src/main.py`)

The process-wide `state : Dict[int, PendingEntry]` becomes an association
list with unique keys; the append-only JSONL file becomes a
`List LoggedEntry`; `datetime` values become explicit `DateTime` records at
the minute precision of `fmt_utc_human`, the only precision any persisted
observable retains. -/

/-- A UTC timestamp at the precision of `fmt_utc_human`
(`strftime("%Y-%m-%d %H:%M UTC")`, `src/main.py` lines 36–38). -/
structure DateTime where
  year : Nat
  month : Nat
  day : Nat
  hour : Nat
  minute : Nat
deriving DecidableEq, Repr

def pad2 (n : Nat) : String :=
  if n < 10 then "0" ++ toString n else toString n

def pad4 (n : Nat) : String :=
  if n < 10 then "000" ++ toString n
  else if n < 100 then "00" ++ toString n
  else if n < 1000 then "0" ++ toString n
  else toString n

/-- `fmt_utc_human`: render a UTC instant as `"YYYY-MM-DD HH:MM UTC"`. -/
def fmt_utc_human (t : DateTime) : String :=
  pad4 t.year ++ "-" ++ pad2 t.month ++ "-" ++ pad2 t.day ++ " " ++
  pad2 t.hour ++ ":" ++ pad2 t.minute ++ " UTC"

/-- `PendingEntry` (`src/main.py` lines 40–48). -/
structure PendingEntry where
  started_at : DateTime
  texts : List String
  images : List String
deriving DecidableEq

/-- The derived `PendingEntry.description` property: non-empty text lines
joined with `"\n"`, then stripped. -/
def description (pe : PendingEntry) : String :=
  pyStripStr (String.intercalate "\n" (pe.texts.filter (fun t => t != "")))

/-- One persisted JSONL record, the payload of `save_jsonl`
(`src/main.py` lines 59–67). -/
structure LoggedEntry where
  sent : String
  description : String
  images : List String
  calories : Int
deriving DecidableEq, Repr

/-- The Entry Store: `state : Dict[int, PendingEntry]`. -/
abbrev StateMap := List (Nat × PendingEntry)

/-- `state.get(uid)`. -/
def stGet (st : StateMap) (uid : Nat) : Option PendingEntry :=
  (st.find? (fun p => p.1 == uid)).map (fun p => p.2)

/-- Dict assignment `state[uid] = pe`: replace the existing binding or add
a new one. -/
def stSet (st : StateMap) (uid : Nat) (pe : PendingEntry) : StateMap :=
  match st with
  | [] => [(uid, pe)]
  | p :: rest => if p.1 = uid then (uid, pe) :: rest else p :: stSet rest uid pe

/-- `state.pop(uid, None)` (ignoring the returned value). -/
def stPop (st : StateMap) (uid : Nat) : StateMap :=
  st.filter (fun p => p.1 != uid)

/-- The user-visible outcome of `handle_text`: entry saved, "No pending
entry" state error, or text accumulated ("Noted"). -/
inductive TextOutcome
  | saved
  | noPendingError
  | noted
deriving DecidableEq, Repr

/-- `handle_text` (`src/main.py` lines 208–236): strip the message; if it
matches `CAL_RE`, close and flush the pending entry (error if none exists),
otherwise accumulate the text into the (created-if-absent) pending entry. -/
def handle_text (st : StateMap) (log : List LoggedEntry) (uid : Nat)
    (now : DateTime) (raw : String) : StateMap × List LoggedEntry × TextOutcome :=
  let text := pyStripStr raw
  match calClose text with
  | some kcal =>
    match stGet st uid with
    | none => (st, log, .noPendingError)
    | some pe =>
      (stPop st uid,
       log ++ [{ sent := fmt_utc_human pe.started_at, description := description pe,
                 images := pe.images, calories := (kcal : Int) }],
       .saved)
  | none =>
    let pe := (stGet st uid).getD { started_at := now, texts := [], images := [] }
    (stSet st uid { pe with texts := pe.texts ++ [text] }, log, .noted)

/-- `handle_photo` (`src/main.py` lines 238–253), with the downloaded file
path supplied by the caller (photo download is a collaborator concern). -/
def handle_photo (st : StateMap) (uid : Nat) (now : DateTime) (ref : String) :
    StateMap :=
  let pe := (stGet st uid).getD { started_at := now, texts := [], images := [] }
  stSet st uid { pe with images := pe.images ++ [ref] }

lemma stGet_stPop (st : StateMap) (uid : Nat) : stGet (stPop st uid) uid = none := by
  induction st with
  | nil => rfl
  | cons p t ih =>
    simp only [stPop] at ih ⊢
    by_cases h : p.1 = uid
    · simpa [List.filter_cons, h] using ih
    · simp [List.filter_cons, h, stGet, List.find?_cons]

/-- C2: with a pending entry holding text `"chicken salad"` and image
`"p1.jpg"`, the message `"650 kcal"` appends exactly one `LoggedEntry` with
that description, that image list, calories 650, and `sent` equal to the
formatted `started_at`; afterwards the store has no entry for the user. -/
theorem C2_close_flush_scenario (st : StateMap) (log : List LoggedEntry)
    (uid : Nat) (now t0 : DateTime)
    (h : stGet st uid =
      some { started_at := t0, texts := ["chicken salad"], images := ["p1.jpg"] }) :
    handle_text st log uid now "650 kcal" =
      (stPop st uid,
       log ++ [{ sent := fmt_utc_human t0, description := "chicken salad",
                 images := ["p1.jpg"], calories := 650 }],
       .saved) ∧
    stGet (stPop st uid) uid = none := by
  have hc : calClose (pyStripStr "650 kcal") = some 650 := by decide
  have hd : description
      { started_at := t0, texts := ["chicken salad"], images := ["p1.jpg"] }
      = "chicken salad" := rfl
  refine ⟨?_, stGet_stPop st uid⟩
  simp only [handle_text, hc, h, hd]
  norm_num

/-- C3: a close-matching message from a user with no pending entry yields
the state error, writes nothing to the log, and leaves the Entry Store
unchanged (in particular no pending entry is created). -/
theorem C3_close_without_pending (st : StateMap) (log : List LoggedEntry)
    (uid : Nat) (now : DateTime) (raw : String) (k : Nat)
    (hm : calClose (pyStripStr raw) = some k)
    (h0 : stGet st uid = none) :
    handle_text st log uid now raw = (st, log, .noPendingError) := by
  simp only [handle_text, hm, h0]

/-- Witness for C2 at a concrete store, user, and timestamps. -/
theorem C2_close_flush_scenario_witness :
    handle_text
      [(7, { started_at := ⟨2024, 1, 9, 18, 0⟩, texts := ["chicken salad"],
             images := ["p1.jpg"] })] [] 7 ⟨2024, 1, 10, 9, 0⟩ "650 kcal" =
      (stPop [(7, { started_at := ⟨2024, 1, 9, 18, 0⟩, texts := ["chicken salad"],
                    images := ["p1.jpg"] })] 7,
       [] ++ [{ sent := fmt_utc_human ⟨2024, 1, 9, 18, 0⟩,
                description := "chicken salad", images := ["p1.jpg"],
                calories := 650 }],
       .saved) ∧
    stGet (stPop [(7, { started_at := ⟨2024, 1, 9, 18, 0⟩,
                        texts := ["chicken salad"],
                        images := ["p1.jpg"] })] 7) 7 = none :=
  C2_close_flush_scenario
    [(7, { started_at := ⟨2024, 1, 9, 18, 0⟩, texts := ["chicken salad"],
           images := ["p1.jpg"] })] [] 7 ⟨2024, 1, 10, 9, 0⟩ ⟨2024, 1, 9, 18, 0⟩ rfl

/-- Witness for C3: `"400 cal"` with an empty store. -/
theorem C3_close_without_pending_witness :
    handle_text [] [] 7 ⟨2024, 1, 10, 9, 0⟩ "400 cal" = ([], [], .noPendingError) :=
  C3_close_without_pending [] [] 7 ⟨2024, 1, 10, 9, 0⟩ "400 cal" 400 (by decide) rfl

/-! ### Report Aggregator (`cmd_report`, `src/main.py` lines 108–138)

The JSONL file is modelled as the list of its parsed records.  `strptime`
parsing of the `sent` field is modelled by `parseSent`, strict about the
`"%Y-%m-%d %H:%M UTC"` shape and about calendar validity, exactly as
`datetime.strptime` is; a record it rejects makes the Python handler raise
`ValueError`, modelled as `ReportOut.parseFailure`. -/

/-- A calendar date (`datetime.date`). -/
structure Date where
  year : Nat
  month : Nat
  day : Nat
deriving DecidableEq, Repr

/-- Python `date` ordering: lexicographic on (year, month, day). -/
def dateLe (a b : Date) : Bool :=
  decide (a.year < b.year ∨ (a.year = b.year ∧ (a.month < b.month ∨
    (a.month = b.month ∧ a.day ≤ b.day))))

def isLeap (y : Nat) : Bool :=
  decide ((y % 4 = 0 ∧ y % 100 ≠ 0) ∨ y % 400 = 0)

def daysInMonth (y m : Nat) : Nat :=
  if m = 2 then (if isLeap y then 29 else 28)
  else if m = 4 ∨ m = 6 ∨ m = 9 ∨ m = 11 then 30
  else 31

/-- Numeric value of an ASCII digit character. -/
def dval (c : Char) : Nat := c.toNat - 48

/-- `datetime.strptime(s, "%Y-%m-%d %H:%M UTC").date()`: accept exactly the
zero-padded rendering `fmt_utc_human` produces, with calendar-valid fields
(`strptime` checks month, day-of-month, hour and minute ranges and raises
`ValueError` otherwise). -/
def parseSent (s : String) : Option Date :=
  match s.data with
  | [y1, y2, y3, y4, k1, m1, m2, k2, d1, d2, sp1, a1, a2, q1, b1, b2, sp2, u1, u2, u3] =>
    if pyDigit y1 ∧ pyDigit y2 ∧ pyDigit y3 ∧ pyDigit y4 ∧
       k1 = '-' ∧ pyDigit m1 ∧ pyDigit m2 ∧ k2 = '-' ∧
       pyDigit d1 ∧ pyDigit d2 ∧ sp1 = ' ' ∧
       pyDigit a1 ∧ pyDigit a2 ∧ q1 = ':' ∧ pyDigit b1 ∧ pyDigit b2 ∧
       sp2 = ' ' ∧ u1 = 'U' ∧ u2 = 'T' ∧ u3 = 'C' then
      let y := ((dval y1 * 10 + dval y2) * 10 + dval y3) * 10 + dval y4
      let mo := dval m1 * 10 + dval m2
      let da := dval d1 * 10 + dval d2
      let hh := dval a1 * 10 + dval a2
      let mi := dval b1 * 10 + dval b2
      if 1 ≤ y ∧ 1 ≤ mo ∧ mo ≤ 12 ∧ 1 ≤ da ∧ da ≤ daysInMonth y mo ∧
         hh ≤ 23 ∧ mi ≤ 59 then
        some ⟨y, mo, da⟩
      else none
    else none
  | _ => none

/-- One step of `daily_calories[sent_date] += entry["calories"]` on a
`defaultdict(int)` represented as an association list. -/
def addEntry : List (Date × Int) → Date → Int → List (Date × Int)
  | [], d, c => [(d, c)]
  | p :: rest, d, c =>
    if p.1 = d then (p.1, p.2 + c) :: rest else p :: addEntry rest d c

/-- `daily_calories[date]` (every looked-up key is present in `cmd_report`,
so the `defaultdict` default 0 is never observable). -/
def lookupD (m : List (Date × Int)) (d : Date) : Int :=
  ((m.find? (fun p => p.1 == d)).map (fun p => p.2)).getD 0

/-- Outcome of `/report`: the "No entries found." reply, an unhandled
`strptime` failure, or the per-day report lines (date, total calories). -/
inductive ReportOut
  | noEntries
  | parseFailure
  | report (lines : List (Date × Int))
deriving DecidableEq, Repr

/-- The `daily_calories` accumulation loop of `cmd_report`. -/
def daily_calories (pairs : List (Date × Int)) : List (Date × Int) :=
  pairs.foldl (fun m p => addEntry m p.1 p.2) []

/-- `sorted(daily_calories.keys(), reverse=True)`: the logged dates in
descending calendar order (the keys are distinct, so stability of the sort
is irrelevant). -/
def sorted_dates (daily : List (Date × Int)) : List Date :=
  (daily.map Prod.fst).mergeSort (fun a b => dateLe b a)

/-- `cmd_report`: parse every record's `sent` date, sum calories per date,
sort the dates descending, and report the 7 most recent logged dates
(`latest_7_dates = sorted_dates[:7]`). -/
def cmd_report (entries : List LoggedEntry) : ReportOut :=
  if entries = [] then .noEntries
  else
    match entries.mapM (fun e => (parseSent e.sent).map (fun d => (d, e.calories))) with
    | none => .parseFailure
    | some pairs =>
      .report (((sorted_dates (daily_calories pairs)).take 7).map
        (fun d => (d, lookupD (daily_calories pairs) d)))

lemma addEntry_fst_mem (m : List (Date × Int)) (d : Date) (c : Int) (x : Date) :
    x ∈ (addEntry m d c).map Prod.fst ↔ x ∈ m.map Prod.fst ∨ x = d := by
  induction m with
  | nil => simp [addEntry]
  | cons p rest ih =>
    by_cases hp : p.1 = d
    · subst hp
      simp [addEntry]
      tauto
    · simp [addEntry, hp, ih]
      tauto

lemma addEntry_fst_nodup (m : List (Date × Int)) (d : Date) (c : Int)
    (h : (m.map Prod.fst).Nodup) : ((addEntry m d c).map Prod.fst).Nodup := by
  induction m with
  | nil => simp [addEntry]
  | cons p rest ih =>
    by_cases hp : p.1 = d
    · have he : addEntry (p :: rest) d c = (p.1, p.2 + c) :: rest := by
        simp [addEntry, hp]
      rw [he, List.map_cons]
      rw [List.map_cons] at h
      exact h
    · have he : addEntry (p :: rest) d c = p :: addEntry rest d c := by
        simp [addEntry, hp]
      rw [he, List.map_cons]
      rw [List.map_cons] at h
      rw [List.nodup_cons] at h ⊢
      refine ⟨fun hmem => ?_, ih h.2⟩
      rcases (addEntry_fst_mem rest d c p.1).mp hmem with h' | h'
      · exact h.1 h'
      · exact hp h'

lemma lookupD_cons (a : Date × Int) (t : List (Date × Int)) (x : Date) :
    lookupD (a :: t) x = if a.1 = x then a.2 else lookupD t x := by
  by_cases h : a.1 = x <;> simp [lookupD, List.find?_cons, h]

lemma lookupD_addEntry (m : List (Date × Int)) (d : Date) (c : Int) (x : Date) :
    lookupD (addEntry m d c) x = lookupD m x + (if x = d then c else 0) := by
  induction m with
  | nil =>
    rw [show addEntry [] d c = [(d, c)] from rfl, lookupD_cons]
    by_cases hx : x = d
    · subst hx
      simp [lookupD]
    · rw [if_neg (fun he => hx he.symm), if_neg hx]
      simp [lookupD]
  | cons p rest ih =>
    simp only [addEntry]
    by_cases hp : p.1 = d
    · rw [if_pos hp, lookupD_cons, lookupD_cons]
      by_cases hx : p.1 = x
      · have hxd : x = d := by rw [← hx, hp]
        rw [if_pos hx, if_pos hx, if_pos hxd]
      · have hxd : ¬ x = d := fun he => hx (by rw [hp, ← he])
        rw [if_neg hx, if_neg hx, if_neg hxd]
        ring
    · rw [if_neg hp, lookupD_cons, lookupD_cons]
      by_cases hx : p.1 = x
      · have hxd : ¬ x = d := fun he => hp (by rw [hx, he])
        rw [if_pos hx, if_pos hx, if_neg hxd]
        ring
      · rw [if_neg hx, if_neg hx]
        exact ih

lemma foldl_addEntry_fst_mem (l m : List (Date × Int)) (x : Date) :
    x ∈ ((l.foldl (fun m p => addEntry m p.1 p.2) m).map Prod.fst) ↔
      x ∈ m.map Prod.fst ∨ x ∈ l.map Prod.fst := by
  induction l generalizing m with
  | nil => simp
  | cons p t ih =>
    simp only [List.foldl_cons, List.map_cons, List.mem_cons]
    rw [ih, addEntry_fst_mem]
    tauto

lemma foldl_addEntry_fst_nodup (l m : List (Date × Int))
    (h : (m.map Prod.fst).Nodup) :
    ((l.foldl (fun m p => addEntry m p.1 p.2) m).map Prod.fst).Nodup := by
  induction l generalizing m with
  | nil => exact h
  | cons p t ih =>
    simp only [List.foldl_cons]
    exact ih _ (addEntry_fst_nodup m p.1 p.2 h)

lemma lookupD_foldl (l m : List (Date × Int)) (x : Date) :
    lookupD (l.foldl (fun m p => addEntry m p.1 p.2) m) x =
      lookupD m x + ((l.filter (fun p => p.1 == x)).map Prod.snd).sum := by
  induction l generalizing m with
  | nil => simp
  | cons p t ih =>
    rw [List.foldl_cons, ih, lookupD_addEntry, List.filter_cons]
    by_cases hx : p.1 = x
    · have hb : (p.1 == x) = true := beq_iff_eq.mpr hx
      rw [if_pos hb, List.map_cons, List.sum_cons, if_pos hx.symm]
      ring
    · have hb : ¬ ((p.1 == x) = true) := by simp [hx]
      rw [if_neg hb, if_neg (fun he => hx he.symm)]
      ring

lemma dateLe_trans {a b c : Date} (h1 : dateLe a b = true) (h2 : dateLe b c = true) :
    dateLe a c = true := by
  simp only [dateLe, decide_eq_true_eq] at *
  omega

lemma dateLe_total (a b : Date) : (dateLe a b || dateLe b a) = true := by
  simp only [dateLe, Bool.or_eq_true, decide_eq_true_eq]
  omega

/-- When every record's `sent` parses, the dates of the per-record pairs are
exactly the parsed dates of the records, in order. -/
lemma mapM_parse_fst {entries : List LoggedEntry} {pairs : List (Date × Int)}
    (h : entries.mapM (fun e => (parseSent e.sent).map (fun d => (d, e.calories)))
      = some pairs) :
    pairs.map Prod.fst = entries.filterMap (fun e => parseSent e.sent) := by
  induction entries generalizing pairs with
  | nil =>
    simp only [List.mapM_nil, pure, Option.some_inj] at h
    subst h
    simp
  | cons e t ih =>
    rw [List.mapM_cons] at h
    cases hpe : parseSent e.sent with
    | none => rw [hpe] at h; simp at h
    | some d0 =>
      rw [hpe] at h
      cases hmt : t.mapM (fun e => (parseSent e.sent).map (fun d => (d, e.calories))) with
      | none => rw [hmt] at h; simp at h
      | some rest =>
        rw [hmt] at h
        simp at h
        subst h
        simp only [List.map_cons, List.filterMap_cons, hpe]
        rw [ih hmt]

/-- When every record's `sent` parses, per-date sums over the pairs equal
per-date calorie sums over the records. -/
lemma mapM_parse_sum {entries : List LoggedEntry} {pairs : List (Date × Int)}
    (h : entries.mapM (fun e => (parseSent e.sent).map (fun d => (d, e.calories)))
      = some pairs) (x : Date) :
    ((pairs.filter (fun p => p.1 == x)).map Prod.snd).sum =
      ((entries.filter (fun e => parseSent e.sent == some x)).map
        (fun e => e.calories)).sum := by
  induction entries generalizing pairs with
  | nil =>
    simp only [List.mapM_nil, pure, Option.some_inj] at h
    subst h
    simp
  | cons e t ih =>
    rw [List.mapM_cons] at h
    cases hpe : parseSent e.sent with
    | none => rw [hpe] at h; simp at h
    | some d0 =>
      rw [hpe] at h
      cases hmt : t.mapM (fun e => (parseSent e.sent).map (fun d => (d, e.calories))) with
      | none => rw [hmt] at h; simp at h
      | some rest =>
        rw [hmt] at h
        simp at h
        subst h
        simp only [List.filter_cons, hpe]
        by_cases hd : d0 = x
        · subst hd
          simp only [beq_self_eq_true, if_true, List.map_cons, List.sum_cons]
          rw [ih hmt]
        · have hb1 : ((d0, e.calories).1 == x) = false := by simp [hd]
          have hb2 : (some d0 == some x) = false := by simp [hd]
          simp only [hb1, hb2, Bool.false_eq_true, if_false]
          exact ih hmt

lemma daily_calories_fst_mem (pairs : List (Date × Int)) (x : Date) :
    x ∈ (daily_calories pairs).map Prod.fst ↔ x ∈ pairs.map Prod.fst := by
  rw [daily_calories, foldl_addEntry_fst_mem]
  simp

lemma daily_calories_fst_nodup (pairs : List (Date × Int)) :
    ((daily_calories pairs).map Prod.fst).Nodup :=
  foldl_addEntry_fst_nodup pairs [] (by simp)

lemma lookupD_daily_calories (pairs : List (Date × Int)) (x : Date) :
    lookupD (daily_calories pairs) x =
      ((pairs.filter (fun p => p.1 == x)).map Prod.snd).sum := by
  rw [daily_calories, lookupD_foldl]
  simp [lookupD]

lemma sorted_dates_perm (daily : List (Date × Int)) :
    (sorted_dates daily).Perm (daily.map Prod.fst) :=
  List.mergeSort_perm _ _

lemma sorted_dates_pairwise (daily : List (Date × Int)) :
    (sorted_dates daily).Pairwise (fun a b => dateLe b a = true) :=
  @List.sorted_mergeSort Date (fun a b => dateLe b a)
    (fun _ _ _ hab hbc => dateLe_trans hbc hab)
    (fun a b => dateLe_total b a) (daily.map Prod.fst)

/-- C8: over a non-empty fully-parsable log, `/report` lists logged dates
strictly descending — all of them when at most 7 distinct dates exist,
otherwise exactly the 7 most recent (every omitted logged date is older than
every reported one) — each with the sum of the calories of its records; an
empty log instead yields the distinguishable `noEntries` signal. -/
theorem C8_report_aggregator (entries : List LoggedEntry)
    (pairs : List (Date × Int)) (hne : entries ≠ [])
    (hp : entries.mapM (fun e => (parseSent e.sent).map (fun d => (d, e.calories)))
      = some pairs) :
    cmd_report [] = .noEntries ∧
    ∃ lines, cmd_report entries = .report lines ∧
      (lines.map Prod.fst).Pairwise (fun a b => dateLe b a = true ∧ a ≠ b) ∧
      (∀ d ∈ lines.map Prod.fst, d ∈ entries.filterMap (fun e => parseSent e.sent)) ∧
      ((entries.filterMap (fun e => parseSent e.sent)).dedup.length ≤ 7 →
        ∀ d ∈ entries.filterMap (fun e => parseSent e.sent), d ∈ lines.map Prod.fst) ∧
      (7 < (entries.filterMap (fun e => parseSent e.sent)).dedup.length →
        lines.length = 7 ∧
        ∀ d ∈ entries.filterMap (fun e => parseSent e.sent),
          d ∉ lines.map Prod.fst →
          ∀ d' ∈ lines.map Prod.fst, dateLe d d' = true ∧ d ≠ d') ∧
      (∀ p ∈ lines, p.2 =
        ((entries.filter (fun e => parseSent e.sent == some p.1)).map
          (fun e => e.calories)).sum) := by
  have hfst := mapM_parse_fst hp
  have hshape : cmd_report entries =
      .report (((sorted_dates (daily_calories pairs)).take 7).map
        (fun d => (d, lookupD (daily_calories pairs) d))) := by
    simp only [cmd_report, hp]
    rw [if_neg hne]
  have hperm := sorted_dates_perm (daily_calories pairs)
  have hkey_mem : ∀ x, x ∈ (daily_calories pairs).map Prod.fst ↔
      x ∈ entries.filterMap (fun e => parseSent e.sent) := by
    intro x
    rw [daily_calories_fst_mem, hfst]
  have hkey_nodup := daily_calories_fst_nodup pairs
  have hs_nodup : (sorted_dates (daily_calories pairs)).Nodup :=
    hperm.nodup_iff.mpr hkey_nodup
  have hs_pairwise := sorted_dates_pairwise (daily_calories pairs)
  have hs_mem : ∀ x, x ∈ sorted_dates (daily_calories pairs) ↔
      x ∈ entries.filterMap (fun e => parseSent e.sent) := by
    intro x
    rw [hperm.mem_iff, hkey_mem]
  have hdedup_perm : ((daily_calories pairs).map Prod.fst).Perm
      (entries.filterMap (fun e => parseSent e.sent)).dedup := by
    refine List.perm_of_nodup_nodup_toFinset_eq hkey_nodup (List.nodup_dedup _) ?_
    ext a
    simp only [List.mem_toFinset, List.mem_dedup]
    exact hkey_mem a
  have hs_len : (sorted_dates (daily_calories pairs)).length =
      (entries.filterMap (fun e => parseSent e.sent)).dedup.length :=
    hperm.length_eq.trans hdedup_perm.length_eq
  have hmapfst :
      (((sorted_dates (daily_calories pairs)).take 7).map
        (fun d => (d, lookupD (daily_calories pairs) d))).map Prod.fst =
      (sorted_dates (daily_calories pairs)).take 7 := by
    rw [List.map_map]
    have hid : (Prod.fst ∘ fun d => (d, lookupD (daily_calories pairs) d)) = id := rfl
    rw [hid, List.map_id]
  refine ⟨rfl, _, hshape, ?_, ?_, ?_, ?_, ?_⟩
  · -- strictly descending
    rw [hmapfst]
    exact (List.Pairwise.sublist (List.take_sublist 7 _) hs_pairwise).and
      (List.Nodup.sublist (List.take_sublist 7 _) hs_nodup)
  · -- every reported date is a logged date
    rw [hmapfst]
    intro d hd
    exact (hs_mem d).mp ((List.take_sublist 7 _).subset hd)
  · -- at most 7 distinct dates: all are reported
    rw [hmapfst]
    intro h7 d hd
    rw [List.take_of_length_le (by omega : (sorted_dates (daily_calories pairs)).length ≤ 7)]
    exact (hs_mem d).mpr hd
  · -- more than 7 distinct dates: 7 most recent
    intro h7
    constructor
    · rw [List.length_map, List.length_take]
      omega
    · rw [hmapfst]
      intro d hd hnotin d' hd'
      have hdmem : d ∈ sorted_dates (daily_calories pairs) := (hs_mem d).mpr hd
      have hsplit := List.take_append_drop 7 (sorted_dates (daily_calories pairs))
      have hddrop : d ∈ (sorted_dates (daily_calories pairs)).drop 7 := by
        rcases List.mem_append.mp (by rw [hsplit]; exact hdmem) with h' | h'
        · exact absurd h' hnotin
        · exact h'
      have hall : (sorted_dates (daily_calories pairs)).Pairwise
          (fun a b => dateLe b a = true ∧ a ≠ b) := hs_pairwise.and hs_nodup
      rw [← hsplit] at hall
      have hcross := (List.pairwise_append.mp hall).2.2 d' hd' d hddrop
      exact ⟨hcross.1, fun he => hcross.2 he.symm⟩
  · -- totals
    intro p hpmem
    obtain ⟨d, hdmem, rfl⟩ := List.mem_map.mp hpmem
    rw [lookupD_daily_calories, mapM_parse_sum hp]

/-- A concrete two-record log used to witness the report aggregator. -/
def sampleLog : List LoggedEntry :=
  [{ sent := "2024-01-09 18:00 UTC", description := "a", images := [], calories := 650 },
   { sent := "2024-01-08 12:00 UTC", description := "b", images := [], calories := 400 }]

/-- The per-record (date, calories) pairs of `sampleLog`. -/
def samplePairs : List (Date × Int) :=
  [(⟨2024, 1, 9⟩, 650), (⟨2024, 1, 8⟩, 400)]

/-- Witness for C8 at the concrete log `sampleLog`. -/
theorem C8_report_aggregator_witness :
    cmd_report [] = .noEntries ∧
    ∃ lines, cmd_report sampleLog = .report lines ∧
      (lines.map Prod.fst).Pairwise (fun a b => dateLe b a = true ∧ a ≠ b) ∧
      (∀ d ∈ lines.map Prod.fst, d ∈ sampleLog.filterMap (fun e => parseSent e.sent)) ∧
      ((sampleLog.filterMap (fun e => parseSent e.sent)).dedup.length ≤ 7 →
        ∀ d ∈ sampleLog.filterMap (fun e => parseSent e.sent), d ∈ lines.map Prod.fst) ∧
      (7 < (sampleLog.filterMap (fun e => parseSent e.sent)).dedup.length →
        lines.length = 7 ∧
        ∀ d ∈ sampleLog.filterMap (fun e => parseSent e.sent),
          d ∉ lines.map Prod.fst →
          ∀ d' ∈ lines.map Prod.fst, dateLe d d' = true ∧ d ≠ d') ∧
      (∀ p ∈ lines, p.2 =
        ((sampleLog.filter (fun e => parseSent e.sent == some p.1)).map
          (fun e => e.calories)).sum) :=
  C8_report_aggregator sampleLog samplePairs (by decide) (by decide)

/-! ### Time Resolver (`src/cmd_time.py`)

`handle_time_command` is embedded with instants as integer epoch seconds and
the user timezone as a fixed UTC offset in seconds (`ZoneInfo` objects with
DST transitions are outside the embedding; the offset is an arbitrary
parameter, so every fixed-offset zone is covered).  Calendar dates become
integer epoch days: day 0 = 1970-01-01, a Thursday, so Python's
`date.weekday()` (Monday = 0) of epoch day `d` is `(d + 3) mod 7`.  The
Helsinki conversion does not change the instant, so a success is reported as
the resolved instant together with the intermediate target date and 24-hour
hour. -/

/-- The `_WEEKDAYS` table (`src/cmd_time.py` lines 8–16). -/
def wdTable : List (String × Int) :=
  [("mon", 0), ("monday", 0),
   ("tue", 1), ("tues", 1), ("tuesday", 1),
   ("wed", 2), ("weds", 2), ("wednesday", 2),
   ("thu", 3), ("thur", 3), ("thurs", 3), ("thursday", 3),
   ("fri", 4), ("friday", 4),
   ("sat", 5), ("saturday", 5),
   ("sun", 6), ("sunday", 6)]

/-- A string as the list of its code points (weekday keys are lowercase, so
code points equal their `lowNat` image). -/
def lit (s : String) : List Nat := s.data.map Char.toNat

/-- `_WEEKDAYS.get(dw)` on the lowercased dateword given by code points. -/
def weekdayLookup (w : List Nat) : Option Int :=
  (wdTable.find? (fun p => p.1.data.map Char.toNat == w)).map (fun p => p.2)

/-- `date.weekday()` on an epoch day: Monday = 0 … Sunday = 6. -/
def pyWeekday (d : Int) : Int := (d + 3) % 7

/-- The distinct `TimeCommandError` causes raised by `handle_time_command`
(`src/cmd_time.py` lines 39, 46, 60, 65, 79). -/
inductive TimeErr
  | format
  | hourRange
  | unknownDateWord
  | weekdayRange
  | outOfWindow
deriving DecidableEq, Repr

/-- Observables of a successful resolution: the resolved local calendar
date (epoch day), the 24-hour hour `hr24`, and the resolved instant in epoch
seconds (timezone-independent: `helsinki_dt` denotes the same instant as
`user_dt`). -/
structure TimeResult where
  targetDay : Int
  hr24 : Int
  instant : Int
deriving DecidableEq, Repr

/-- The `(\d{1,2})\s*([AaPp][Mm])$` tail of `_CMD_RE` (`a` = 97, `p` = 112,
`m` = 109). -/
def parseHourAmPm (dw : Option (List Char)) (cs : List Char) :
    Option (Option (List Char) × Nat × Bool) :=
  let ds := cs.takeWhile pyDigit
  if 1 ≤ ds.length ∧ ds.length ≤ 2 then
    match (cs.dropWhile pyDigit).dropWhile pySpace with
    | [a, m] =>
      if (lowNat a = 97 ∨ lowNat a = 112) ∧ lowNat m = 109 then
        some (dw, digitsToNat ds, decide (lowNat a = 112))
      else none
    | _ => none
  else none

/-- `_CMD_RE.match(cmd.strip())` (`src/cmd_time.py` lines 18–24, 37):
`^/time\s+(?:([A-Za-z]+)\s+)?(\d{1,2})\s*([AaPp][Mm])$`.  The backtracking
regex is deterministic: the optional dateword group participates exactly
when a non-empty letter run follows `/time\s+` (a letter can start neither
the hour nor anything after it), the hour is the maximal digit run (whose
length must be 1 or 2), and the am/pm marker must be the final two
characters.  Returns (dateword characters if present, hour value, pm?). -/
def parseTimeCmd (cmd : String) : Option (Option (List Char) × Nat × Bool) :=
  match pyStrip cmd.data with
  | '/' :: 't' :: 'i' :: 'm' :: 'e' :: rest =>
    if rest.takeWhile pySpace = [] then none
    else
      let r1 := rest.dropWhile pySpace
      let letters := r1.takeWhile pyAlpha
      if letters = [] then parseHourAmPm none r1
      else if (r1.dropWhile pyAlpha).takeWhile pySpace = [] then none
      else parseHourAmPm (some letters) ((r1.dropWhile pyAlpha).dropWhile pySpace)
  | _ => none

/-- Target-date resolution (`src/cmd_time.py` lines 54–66): `today`,
`yesterday`, or the most recent occurrence of a weekday, via
`delta = (now_user.weekday() - target_wd) % 7` with the defensive
`delta > 6` branch. -/
def resolveTargetDay (dw : List Nat) (todayDay : Int) : Except TimeErr Int :=
  if dw == lit "today" then .ok todayDay
  else if dw == lit "yesterday" then .ok (todayDay - 1)
  else
    match weekdayLookup dw with
    | none => .error .unknownDateWord
    | some w =>
      if (pyWeekday todayDay - w) % 7 > 6 then .error .weekdayRange
      else .ok (todayDay - (pyWeekday todayDay - w) % 7)

/-- The instant `user_dt` built at line 72: local seconds of the target
date at `hr24 = (hour % 12) + (12 if ampm == "pm" else 0)`, minus the zone
offset. -/
def resolvedInstant (target : Int) (hour : Nat) (pm : Bool) (off : Int) : Int :=
  target * 86400 + (((hour % 12 : Nat) : Int) + (if pm then 12 else 0)) * 3600 - off

/-- `handle_time_command(cmd, user_tz)` (`src/cmd_time.py` lines 28–83) with
the user timezone as the fixed offset `off` (seconds east of UTC) and the
current instant `now` (epoch seconds).  `6 * 86400 + 23 * 3600 + 59 * 60`
seconds is `timedelta(days=6, hours=23, minutes=59)`. -/
def handle_time_command (cmd : String) (off now : Int) : Except TimeErr TimeResult :=
  match parseTimeCmd cmd with
  | none => .error .format
  | some (dwo, hour, pm) =>
    let dw := (dwo.getD "today".data).map lowNat
    if hour < 1 ∨ hour > 12 then .error .hourRange
    else
      match resolveTargetDay dw ((now + off).fdiv 86400) with
      | .error e => .error e
      | .ok target =>
        if now - resolvedInstant target hour pm off > 6 * 86400 + 23 * 3600 + 59 * 60 ∨
           resolvedInstant target hour pm off > now + 59 then
          .error .outOfWindow
        else
          .ok ⟨target, ((hour % 12 : Nat) : Int) + (if pm then 12 else 0),
               resolvedInstant target hour pm off⟩

example : parseTimeCmd "/time yesterday 6 pm" = some (some "yesterday".data, 6, true) := by
  decide
example : parseTimeCmd "/time wed 8 am" = some (some "wed".data, 8, false) := by decide
example : parseTimeCmd "/time 10 pm" = some (none, 10, true) := by decide
example : parseTimeCmd "/time 6pm" = some (none, 6, true) := by decide
example : parseTimeCmd "/time monday6pm" = none := by decide
example : parseTimeCmd "time 6 pm" = none := by decide
example : parseTimeCmd "/time 123 pm" = none := by decide
example : handle_time_command "/time yesterday 6 pm" 0 300000 =
    .ok ⟨2, 18, 237600⟩ := rfl

lemma resolveTargetDay_error_cases {dw : List Nat} {td : Int} {e : TimeErr}
    (h : resolveTargetDay dw td = .error e) :
    e = .unknownDateWord ∨ e = .weekdayRange := by
  unfold resolveTargetDay at h
  by_cases h1 : (dw == lit "today") = true
  · rw [if_pos h1] at h
    exact absurd h (by simp)
  · rw [if_neg h1] at h
    by_cases h2 : (dw == lit "yesterday") = true
    · rw [if_pos h2] at h
      exact absurd h (by simp)
    · rw [if_neg h2] at h
      cases hl : weekdayLookup dw with
      | none =>
        rw [hl] at h
        injection h with h
        exact Or.inl h.symm
      | some w =>
        rw [hl] at h
        dsimp only at h
        by_cases h3 : (pyWeekday td - w) % 7 > 6
        · rw [if_pos h3] at h
          injection h with h
          exact Or.inr h.symm
        · rw [if_neg h3] at h
          exact absurd h (by simp)

lemma weekdayLookup_bounds {dw : List Nat} {w : Int}
    (h : weekdayLookup dw = some w) :
    (0 ≤ w ∧ w < 7) ∧ (dw == lit "today") = false ∧
      (dw == lit "yesterday") = false := by
  unfold weekdayLookup at h
  cases hf : wdTable.find? (fun p => p.1.data.map Char.toNat == dw) with
  | none => rw [hf] at h; simp at h
  | some p =>
    rw [hf] at h
    have hmem := List.mem_of_find?_eq_some hf
    have hpred := List.find?_some hf
    have hdw : p.1.data.map Char.toNat = dw := by simpa using hpred
    subst hdw
    injection h with h
    subst h
    have key : ∀ q ∈ wdTable, (0 ≤ q.2 ∧ q.2 < 7) ∧
        (q.1.data.map Char.toNat == lit "today") = false ∧
        (q.1.data.map Char.toNat == lit "yesterday") = false := by decide
    exact key p hmem

/-- C7: for every recognized weekday word and every "today", the mod-7
lookback delta lies in 0..6 — so the defensive `delta > 6` error branch is
unreachable — and the resolved target date is the most recent date (today
included) whose weekday matches the requested one. -/
theorem C7_weekday_lookback (dw : List Nat) (w todayDay : Int)
    (hw : weekdayLookup dw = some w) :
    0 ≤ (pyWeekday todayDay - w) % 7 ∧ (pyWeekday todayDay - w) % 7 ≤ 6 ∧
    resolveTargetDay dw todayDay = .ok (todayDay - (pyWeekday todayDay - w) % 7) ∧
    pyWeekday (todayDay - (pyWeekday todayDay - w) % 7) = w ∧
    (∀ d : Int, todayDay - (pyWeekday todayDay - w) % 7 < d → d ≤ todayDay →
      pyWeekday d ≠ w) := by
  obtain ⟨⟨hw0, hw7⟩, hnt, hny⟩ := weekdayLookup_bounds hw
  have h0 : 0 ≤ (pyWeekday todayDay - w) % 7 :=
    Int.emod_nonneg _ (by norm_num)
  have h7 : (pyWeekday todayDay - w) % 7 < 7 :=
    Int.emod_lt_of_pos _ (by norm_num)
  refine ⟨h0, by omega, ?_, ?_, ?_⟩
  · simp only [resolveTargetDay, hw]
    rw [if_neg (by simp [hnt]), if_neg (by simp [hny]), if_neg (by omega)]
  · simp only [pyWeekday] at h0 h7 ⊢
    omega
  · intro d hlt hle heq
    simp only [pyWeekday] at h0 h7 hlt hle heq
    omega

/-- Witness for C7: the word `"mon"` on a Sunday (epoch day 3 is
1970-01-04). -/
theorem C7_weekday_lookback_witness :
    0 ≤ (pyWeekday 3 - 0) % 7 ∧ (pyWeekday 3 - 0) % 7 ≤ 6 ∧
    resolveTargetDay (lit "mon") 3 = .ok (3 - (pyWeekday 3 - 0) % 7) ∧
    pyWeekday (3 - (pyWeekday 3 - 0) % 7) = 0 ∧
    (∀ d : Int, 3 - (pyWeekday 3 - 0) % 7 < d → d ≤ 3 → pyWeekday d ≠ 0) :=
  C7_weekday_lookback (lit "mon") 0 3 (by decide)

/-- C9: when the date word names "now"'s own weekday, the resolved target
date is today itself (the lookback delta is zero). -/
theorem C9_same_weekday_today (dw : List Nat) (todayDay : Int)
    (hw : weekdayLookup dw = some (pyWeekday todayDay)) :
    resolveTargetDay dw todayDay = .ok todayDay := by
  obtain ⟨⟨hw0, hw7⟩, hnt, hny⟩ := weekdayLookup_bounds hw
  simp only [resolveTargetDay, hw]
  rw [if_neg (by simp [hnt]), if_neg (by simp [hny]), if_neg (by simp)]
  simp

/-- Witness for C9: `"thu"` on a Thursday (epoch day 0). -/
theorem C9_same_weekday_today_witness :
    resolveTargetDay (lit "thu") 0 = .ok 0 :=
  C9_same_weekday_today (lit "thu") 0 (by decide)

/-- C6: an hour outside 1–12 fails with the hour-range validation error
before any date resolution (whatever the date word is); hours 1 and 12 never
produce that error. -/
theorem C6_hour_range (cmd : String) (off now : Int)
    (dwo : Option (List Char)) (h : Nat) (pm : Bool)
    (hp : parseTimeCmd cmd = some (dwo, h, pm)) :
    ((h < 1 ∨ 12 < h) → handle_time_command cmd off now = .error .hourRange) ∧
    ((h = 1 ∨ h = 12) → handle_time_command cmd off now ≠ .error .hourRange) := by
  constructor
  · intro hbad
    simp only [handle_time_command, hp]
    rw [if_pos (by omega)]
  · intro hgood
    simp only [handle_time_command, hp]
    rw [if_neg (by omega)]
    cases hres : resolveTargetDay ((dwo.getD "today".data).map lowNat)
        ((now + off).fdiv 86400) with
    | error e =>
      rcases resolveTargetDay_error_cases hres with he | he <;> subst he <;> simp
    | ok target =>
      dsimp only
      by_cases hwin : now - resolvedInstant target h pm off >
          6 * 86400 + 23 * 3600 + 59 * 60 ∨
          resolvedInstant target h pm off > now + 59
      · rw [if_pos hwin]
        simp
      · rw [if_neg hwin]
        simp

/-- Witness for C6: hour 13 is rejected with the hour error, hour 12 never
produces it. -/
theorem C6_hour_range_witness :
    handle_time_command "/time 13 pm" 0 0 = .error .hourRange ∧
    handle_time_command "/time 12 am" 0 0 ≠ .error .hourRange :=
  ⟨(C6_hour_range "/time 13 pm" 0 0 none 13 true rfl).1 (Or.inr (by norm_num)),
   (C6_hour_range "/time 12 am" 0 0 none 12 false rfl).2 (Or.inr rfl)⟩

/-- C5: for a well-formed command (parse, hour validation and date
resolution all succeed), the range error occurs exactly when the resolved
local instant is earlier than 6 days 23 hours 59 minutes before now, or
later than 59 seconds after now. -/
theorem C5_window_bounds (cmd : String) (off now : Int)
    (dwo : Option (List Char)) (h : Nat) (pm : Bool) (target : Int)
    (hp : parseTimeCmd cmd = some (dwo, h, pm))
    (hh : 1 ≤ h ∧ h ≤ 12)
    (hr : resolveTargetDay ((dwo.getD "today".data).map lowNat)
      ((now + off).fdiv 86400) = .ok target) :
    (handle_time_command cmd off now = .error .outOfWindow ↔
      (resolvedInstant target h pm off < now - (6 * 86400 + 23 * 3600 + 59 * 60) ∨
       now + 59 < resolvedInstant target h pm off)) := by
  simp only [handle_time_command, hp, hr]
  rw [if_neg (by omega)]
  split_ifs with hw
  · exact iff_of_true rfl (by omega)
  · exact iff_of_false (by simp) (by omega)

/-- Witness for C5 at the boundary: `"/time mon 12 am"` resolves 6 days
23:59 into the past at `now = 345540` (accepted: both disjuncts false) and
6 days 23:59:01 into the past at `now = 345541` (rejected: first disjunct
true). -/
theorem C5_window_bounds_witness :
    (handle_time_command "/time mon 12 am" 0 345540 = .error .outOfWindow ↔
      (resolvedInstant (-3) 12 false 0 < 345540 - (6 * 86400 + 23 * 3600 + 59 * 60) ∨
       345540 + 59 < resolvedInstant (-3) 12 false 0)) ∧
    (handle_time_command "/time mon 12 am" 0 345541 = .error .outOfWindow ↔
      (resolvedInstant (-3) 12 false 0 < 345541 - (6 * 86400 + 23 * 3600 + 59 * 60) ∨
       345541 + 59 < resolvedInstant (-3) 12 false 0)) :=
  ⟨C5_window_bounds "/time mon 12 am" 0 345540 (some "mon".data) 12 false (-3)
      rfl (by norm_num) rfl,
   C5_window_bounds "/time mon 12 am" 0 345541 (some "mon".data) 12 false (-3)
      rfl (by norm_num) rfl⟩

/-- C10: every accepted command's 24-hour hour follows the 12-hour table
(12 am → 0, 12 pm → 12, 1–11 am → hour, 1–11 pm → hour + 12), and the
resolved local instant has zero minutes and seconds. -/
theorem C10_hr24_conversion (cmd : String) (off now : Int) (r : TimeResult)
    (hok : handle_time_command cmd off now = .ok r) :
    ∃ dwo h pm, parseTimeCmd cmd = some (dwo, h, pm) ∧ 1 ≤ h ∧ h ≤ 12 ∧
      r.hr24 = (if h = 12 then 0 else (h : Int)) + (if pm then 12 else 0) ∧
      (r.instant + off) % 86400 = r.hr24 * 3600 ∧
      (r.instant + off) % 3600 = 0 := by
  cases hp : parseTimeCmd cmd with
  | none =>
    simp only [handle_time_command, hp] at hok
    exact absurd hok (by simp)
  | some t =>
    obtain ⟨dwo, h, pm⟩ := t
    simp only [handle_time_command, hp] at hok
    by_cases hh : h < 1 ∨ h > 12
    · rw [if_pos hh] at hok
      exact absurd hok (by simp)
    · rw [if_neg hh] at hok
      cases hres : resolveTargetDay ((dwo.getD "today".data).map lowNat)
          ((now + off).fdiv 86400) with
      | error e =>
        rw [hres] at hok
        exact absurd hok (by simp)
      | ok target =>
        rw [hres] at hok
        dsimp only at hok
        by_cases hwin : now - resolvedInstant target h pm off >
            6 * 86400 + 23 * 3600 + 59 * 60 ∨
            resolvedInstant target h pm off > now + 59
        · rw [if_pos hwin] at hok
          exact absurd hok (by simp)
        · rw [if_neg hwin] at hok
          have hr : r = ⟨target, ((h % 12 : Nat) : Int) + (if pm then 12 else 0),
              resolvedInstant target h pm off⟩ := (Except.ok.inj hok).symm
          subst hr
          refine ⟨dwo, h, pm, rfl, by omega, by omega, ?_, ?_, ?_⟩
          · show ((h % 12 : Nat) : Int) + _ = _
            by_cases h12 : h = 12
            · subst h12
              norm_num
            · rw [if_neg h12, Nat.mod_eq_of_lt (by omega)]
          · show (resolvedInstant target h pm off + off) % 86400 = _
            simp only [resolvedInstant]
            cases pm <;> simp <;> omega
          · show (resolvedInstant target h pm off + off) % 3600 = 0
            simp only [resolvedInstant]
            cases pm <;> simp <;> omega

/-- Witness for C10: `"/time yesterday 6 pm"` at `now = 300000` resolves to
18:00 local on epoch day 2. -/
theorem C10_hr24_conversion_witness :
    ∃ dwo h pm, parseTimeCmd "/time yesterday 6 pm" = some (dwo, h, pm) ∧
      1 ≤ h ∧ h ≤ 12 ∧
      (⟨2, 18, 237600⟩ : TimeResult).hr24 =
        (if h = 12 then 0 else (h : Int)) + (if pm then 12 else 0) ∧
      ((⟨2, 18, 237600⟩ : TimeResult).instant + 0) % 86400 =
        (⟨2, 18, 237600⟩ : TimeResult).hr24 * 3600 ∧
      ((⟨2, 18, 237600⟩ : TimeResult).instant + 0) % 3600 = 0 :=
  C10_hr24_conversion "/time yesterday 6 pm" 0 300000 ⟨2, 18, 237600⟩ rfl

end Mealgram
